import Mathlib

/-!
Shallow embedding of `arm_fully_connected_mat_q7_vec_q15.c` (CMSIS-NN mixed
Q15-Q7 fully-connected kernel) and verification of its specification.

Buffers (`pV`, `pM`, `bias`) are embedded as `List Int`; every pointer read of
the source becomes an indexed lookup `l[i]?` in the `Option` monad, so an
out-of-bounds access of the C code is `none` in the embedding.  The 32-bit
signed accumulator is embedded as `Int`: the scalar path accumulates in a C
`int`, whose overflow is undefined behaviour, and the caller contract (spec §4,
§7) requires the accumulator to fit in 32 bits, so on the defined domain the
mathematical integer is the faithful model.  Writes through `pOut` are modelled
by appending to a result list; the function returns the status code and that
list.  The two compile-time paths of the source are embedded as two separate
functions, `..._dsp` (lines 59-154) and `..._ref` (lines 156-167).
-/

set_option maxHeartbeats 1000000

/-- Status codes returned by CMSIS-NN kernels.
Modelled from the spec: the enum `arm_cmsis_nn_status` is declared in
`arm_nn_types.h`, which is not among the sources; per spec §6-§7 it has exactly
one success value plus failure values used only by sibling kernels. -/
inductive arm_cmsis_nn_status
  | ARM_CMSIS_NN_SUCCESS
  | ARM_CMSIS_NN_ARG_ERROR
  | ARM_CMSIS_NN_NO_IMPL_ERROR
  deriving DecidableEq, Repr

/-- Modelled from the spec: `NN_ROUND(out_shift)` (macro from
`arm_nnsupportfunctions.h`, not among the sources) adds `1 << (out_shift - 1)`
when `out_shift > 0`, else `0` (spec §4: round-to-nearest offset). -/
def NN_ROUND (out_shift : Nat) : Int :=
  if 0 < out_shift then 2 ^ (out_shift - 1) else 0

/-- Modelled from the spec: `__SSAT(x, 16)` (CMSIS core intrinsic, not among
the sources) clamps `x` into the signed 16-bit range `[-32768, 32767]`
(spec §4: saturation, clamped not wrapped). -/
def SSAT16 (x : Int) : Int :=
  if x < -32768 then -32768 else if 32767 < x then 32767 else x

/-- Arithmetic right shift of the signed accumulator: floor division by
`2 ^ n`.  The source applies `>> out_shift` to a signed `q31_t`, an arithmetic
shift on the target. -/
def asr (x : Int) (n : Nat) : Int := Int.fdiv x (2 ^ n)

/-- Inner column loop of the scalar reference path (lines 162-165):
`for (j = 0; j < dim_vec; j++) { ip_out += pV[j] * pM[i * dim_vec + j]; }`.
`j` is the current column, the last argument the number of iterations left. -/
def scalarColLoop (pV pM : List Int) (rowBase : Nat) : Nat → Int → Nat → Option Int
  | _, acc, 0 => some acc
  | j, acc, cnt + 1 => do
      let v ← pV[j]?
      let m ← pM[rowBase + j]?
      scalarColLoop pV pM rowBase (j + 1) (acc + v * m) cnt

/-- Row loop of the scalar reference path (lines 159-167).  `i` is the current
row, the last argument the number of rows left; each `pOut[i] = ...` write is
modelled by appending to `out`. -/
def scalarRowLoop (pV pM bias : List Int) (dim_vec bias_shift out_shift : Nat) :
    Nat → List Int → Nat → Option (List Int)
  | _, out, 0 => some out
  | i, out, cnt + 1 => do
      let b ← bias[i]?
      let acc ← scalarColLoop pV pM (i * dim_vec) 0
        (b * 2 ^ bias_shift + NN_ROUND out_shift) dim_vec
      scalarRowLoop pV pM bias dim_vec bias_shift out_shift (i + 1)
        (out ++ [SSAT16 (asr acc out_shift)]) cnt

/-- The scalar reference path of `arm_fully_connected_mat_q7_vec_q15`
(lines 156-172), compiled when `ARM_MATH_DSP` is absent.  `vec_buffer` is the
unused scratch argument (`(void)vec_buffer`, line 58). -/
def arm_fully_connected_mat_q7_vec_q15_ref (pV pM : List Int)
    (dim_vec num_of_rows bias_shift out_shift : Nat) (bias : List Int)
    (vec_buffer : List Int) : Option (arm_cmsis_nn_status × List Int) := do
  let out ← scalarRowLoop pV pM bias dim_vec bias_shift out_shift 0 [] num_of_rows
  some (arm_cmsis_nn_status.ARM_CMSIS_NN_SUCCESS, out)

/-- Four-wide inner column loop of the DSP row-pair loop (lines 79-96).
`read_and_pad` (helper from `arm_nnsupportfunctions.h`, not among the sources;
modelled from the spec's packed-read description) sign-extends four `q7_t`
weights `m0..m3` into the packed pairs `(m0,m1)` and `(m2,m3)`;
`arm_nn_read_q15x2_ia` reads two `q15_t` vector entries; `__SMLAD(x, y, a)`
adds the two lane products of `x` and `y` to `a`.  Sign extension is the
identity on values, so the embedding reads the entries directly, in the order
the source reads them.  Returns the advanced cursors `pA`, `pB`, `pB2` and the
two accumulators. -/
def dspPairCol4 (pV pM : List Int) : Nat → Nat → Nat → Int → Int → Nat →
    Option (Nat × Nat × Nat × Int × Int)
  | pA, pB, pB2, sum, sum2, 0 => some (pA, pB, pB2, sum, sum2)
  | pA, pB, pB2, sum, sum2, cnt + 1 => do
      let m0 ← pM[pB]?
      let m1 ← pM[pB + 1]?
      let m2 ← pM[pB + 2]?
      let m3 ← pM[pB + 3]?
      let n0 ← pM[pB2]?
      let n1 ← pM[pB2 + 1]?
      let n2 ← pM[pB2 + 2]?
      let n3 ← pM[pB2 + 3]?
      let v0 ← pV[pA]?
      let v1 ← pV[pA + 1]?
      let sum := sum + (v0 * m0 + v1 * m1)
      let sum2 := sum2 + (v0 * n0 + v1 * n1)
      let v2 ← pV[pA + 2]?
      let v3 ← pV[pA + 3]?
      let sum := sum + (v2 * m2 + v3 * m3)
      let sum2 := sum2 + (v2 * n2 + v3 * n3)
      dspPairCol4 pV pM (pA + 4) (pB + 4) (pB2 + 4) sum sum2 cnt

/-- Remainder column loop of the DSP row-pair loop (lines 97-107): one scalar
multiply-accumulate per leftover column for each of the two rows. -/
def dspPairColRem (pV pM : List Int) : Nat → Nat → Nat → Int → Int → Nat →
    Option (Nat × Nat × Nat × Int × Int)
  | pA, pB, pB2, sum, sum2, 0 => some (pA, pB, pB2, sum, sum2)
  | pA, pB, pB2, sum, sum2, cnt + 1 => do
      let v ← pV[pA]?
      let m ← pM[pB]?
      let m2 ← pM[pB2]?
      dspPairColRem pV pM (pA + 1) (pB + 1) (pB2 + 1) (sum + v * m) (sum2 + v * m2) cnt

/-- Row-pair loop of the DSP path (lines 68-114): processes two output rows
per iteration (`rowCnt = num_of_rows >> 1`).  `pB` is the matrix cursor,
`bIdx` the bias cursor; the two `*pO++ = __SSAT(...)` writes are modelled by
appending to `out`.  After the column loops the source does `pB += dim_vec`
(line 112) to skip the second row just accumulated through `pB2`. -/
def dspRowPairLoop (pV pM bias : List Int) (dim_vec bias_shift out_shift : Nat) :
    Nat → Nat → List Int → Nat → Option (Nat × Nat × List Int)
  | pB, bIdx, out, 0 => some (pB, bIdx, out)
  | pB, bIdx, out, cnt + 1 => do
      let b1 ← bias[bIdx]?
      let b2 ← bias[bIdx + 1]?
      let sum := b1 * 2 ^ bias_shift + NN_ROUND out_shift
      let sum2 := b2 * 2 ^ bias_shift + NN_ROUND out_shift
      let (pA1, pB1, pB21, s1, s21) ←
        dspPairCol4 pV pM 0 pB (pB + dim_vec) sum sum2 (dim_vec >>> 2)
      let (_, pB2f, _, sf, s2f) ←
        dspPairColRem pV pM pA1 pB1 pB21 s1 s21 (dim_vec &&& 3)
      dspRowPairLoop pV pM bias dim_vec bias_shift out_shift (pB2f + dim_vec) (bIdx + 2)
        (out ++ [SSAT16 (asr sf out_shift), SSAT16 (asr s2f out_shift)]) cnt

/-- Four-wide inner column loop of the DSP leftover single row (lines 126-139). -/
def dspSingleCol4 (pV pM : List Int) : Nat → Nat → Int → Nat → Option (Nat × Nat × Int)
  | pA, pB, sum, 0 => some (pA, pB, sum)
  | pA, pB, sum, cnt + 1 => do
      let m0 ← pM[pB]?
      let m1 ← pM[pB + 1]?
      let m2 ← pM[pB + 2]?
      let m3 ← pM[pB + 3]?
      let v0 ← pV[pA]?
      let v1 ← pV[pA + 1]?
      let sum := sum + (v0 * m0 + v1 * m1)
      let v2 ← pV[pA + 2]?
      let v3 ← pV[pA + 3]?
      let sum := sum + (v2 * m2 + v3 * m3)
      dspSingleCol4 pV pM (pA + 4) (pB + 4) sum cnt

/-- Remainder column loop of the DSP leftover single row (lines 142-149). -/
def dspSingleColRem (pV pM : List Int) : Nat → Nat → Int → Nat → Option (Nat × Nat × Int)
  | pA, pB, sum, 0 => some (pA, pB, sum)
  | pA, pB, sum, cnt + 1 => do
      let v ← pV[pA]?
      let m ← pM[pB]?
      dspSingleColRem pV pM (pA + 1) (pB + 1) (sum + v * m) cnt

/-- The DSP (vectorized) path of `arm_fully_connected_mat_q7_vec_q15`
(lines 59-154, compiled under `ARM_MATH_DSP`): the row-pair loop followed by
the leftover single-row loop (`rowCnt = num_of_rows & 0x1`, executed once when
`num_of_rows` is odd). -/
def arm_fully_connected_mat_q7_vec_q15_dsp (pV pM : List Int)
    (dim_vec num_of_rows bias_shift out_shift : Nat) (bias : List Int)
    (vec_buffer : List Int) : Option (arm_cmsis_nn_status × List Int) := do
  let (pB, bIdx, out) ←
    dspRowPairLoop pV pM bias dim_vec bias_shift out_shift 0 0 [] (num_of_rows >>> 1)
  if num_of_rows &&& 1 = 1 then
    let b ← bias[bIdx]?
    let sum := b * 2 ^ bias_shift + NN_ROUND out_shift
    let (pA1, pB1, s1) ← dspSingleCol4 pV pM 0 pB sum (dim_vec >>> 2)
    let (_, _, sf) ← dspSingleColRem pV pM pA1 pB1 s1 (dim_vec &&& 3)
    some (arm_cmsis_nn_status.ARM_CMSIS_NN_SUCCESS, out ++ [SSAT16 (asr sf out_shift)])
  else
    some (arm_cmsis_nn_status.ARM_CMSIS_NN_SUCCESS, out)

/-- Specification-side dot product: `Σ_{t < n} pV[vOff + t] * pM[mOff + t]`,
written recursively from the front to align with the loop cursors. -/
def dotSum (pV pM : List Int) : Nat → Nat → Nat → Int
  | _, _, 0 => 0
  | vOff, mOff, n + 1 =>
      pV.getD vOff 0 * pM.getD mOff 0 + dotSum pV pM (vOff + 1) (mOff + 1) n

/-- Specification-side accumulator of one output row whose weights start at
matrix offset `mOff` and whose bias is entry `bIdx`. -/
def rowAccAt (pV pM bias : List Int) (dim_vec bias_shift out_shift mOff bIdx : Nat) : Int :=
  bias.getD bIdx 0 * 2 ^ bias_shift + NN_ROUND out_shift + dotSum pV pM 0 mOff dim_vec

/-- Specification-side output entry of one row: rounded shift then saturation. -/
def rowOutAt (pV pM bias : List Int) (dim_vec bias_shift out_shift mOff bIdx : Nat) : Int :=
  SSAT16 (asr (rowAccAt pV pM bias dim_vec bias_shift out_shift mOff bIdx) out_shift)

/-- Specification-side output block: `k` consecutive rows starting at matrix
offset `mOff` and bias index `bIdx`. -/
def rowsFromAt (pV pM bias : List Int) (dim_vec bias_shift out_shift : Nat) :
    Nat → Nat → Nat → List Int
  | _, _, 0 => []
  | mOff, bIdx, k + 1 =>
      rowOutAt pV pM bias dim_vec bias_shift out_shift mOff bIdx ::
        rowsFromAt pV pM bias dim_vec bias_shift out_shift (mOff + dim_vec) (bIdx + 1) k

/-- An in-bounds indexed read yields `some` of the default-read value. -/
theorem getOpt_eq (l : List Int) (i : Nat) (h : i < l.length) :
    l[i]? = some (l.getD i 0) := by
  rw [List.getD_eq_getElem l 0 h, List.getElem?_eq_getElem h]

/-- Splitting a dot product at position `a`. -/
theorem dotSum_add (pV pM : List Int) :
    ∀ (a : Nat) (vOff mOff b : Nat),
      dotSum pV pM vOff mOff (a + b) =
        dotSum pV pM vOff mOff a + dotSum pV pM (vOff + a) (mOff + a) b := by
  intro a
  induction a with
  | zero => intro vOff mOff b; simp [dotSum]
  | succ a ih =>
      intro vOff mOff b
      have h1 : a + 1 + b = (a + b) + 1 := by omega
      rw [h1]
      show pV.getD vOff 0 * pM.getD mOff 0 + dotSum pV pM (vOff + 1) (mOff + 1) (a + b) = _
      rw [ih]
      have h2 : vOff + 1 + a = vOff + (a + 1) := by omega
      have h3 : mOff + 1 + a = mOff + (a + 1) := by omega
      rw [h2, h3]
      show _ = pV.getD vOff 0 * pM.getD mOff 0 + dotSum pV pM (vOff + 1) (mOff + 1) a +
        dotSum pV pM (vOff + (a + 1)) (mOff + (a + 1)) b
      ring

/-- The recursive dot product agrees with the `Finset.range` sum. -/
theorem dotSum_eq_sum (pV pM : List Int) :
    ∀ (n vOff mOff : Nat),
      dotSum pV pM vOff mOff n =
        ∑ j ∈ Finset.range n, pV.getD (vOff + j) 0 * pM.getD (mOff + j) 0 := by
  intro n
  induction n with
  | zero => intro vOff mOff; simp [dotSum]
  | succ n ih =>
      intro vOff mOff
      rw [Finset.sum_range_succ']
      show pV.getD vOff 0 * pM.getD mOff 0 + dotSum pV pM (vOff + 1) (mOff + 1) n = _
      rw [ih]
      have h : ∀ j : Nat, vOff + 1 + j = vOff + (j + 1) := by omega
      have h2 : ∀ j : Nat, mOff + 1 + j = mOff + (j + 1) := by omega
      simp only [h, h2, Nat.add_zero]
      ring

/-- Correctness of the scalar inner column loop: it accumulates exactly the
dot product of the remaining `cnt` columns onto `acc` and never goes out of
bounds. -/
theorem scalarColLoop_eq (pV pM : List Int) (rowBase : Nat) :
    ∀ (cnt j : Nat) (acc : Int), j + cnt ≤ pV.length → rowBase + j + cnt ≤ pM.length →
      scalarColLoop pV pM rowBase j acc cnt =
        some (acc + dotSum pV pM j (rowBase + j) cnt) := by
  intro cnt
  induction cnt with
  | zero => intro j acc _ _; simp [scalarColLoop, dotSum]
  | succ cnt ih =>
      intro j acc hV hM
      rw [scalarColLoop, getOpt_eq pV j (by omega), getOpt_eq pM (rowBase + j) (by omega)]
      show scalarColLoop pV pM rowBase (j + 1)
        (acc + pV.getD j 0 * pM.getD (rowBase + j) 0) cnt = _
      rw [ih (j + 1) (acc + pV.getD j 0 * pM.getD (rowBase + j) 0) (by omega) (by omega)]
      congr 1
      show _ = acc + (pV.getD j 0 * pM.getD (rowBase + j) 0 +
        dotSum pV pM (j + 1) (rowBase + j + 1) cnt)
      have h : rowBase + (j + 1) = rowBase + j + 1 := rfl
      rw [h]
      ring

/-- Correctness of the scalar row loop: starting at row `i` with `cnt` rows
left, it appends exactly the specified `cnt` row outputs. -/
theorem scalarRowLoop_eq (pV pM bias : List Int) (dim_vec bias_shift out_shift : Nat)
    (hV : dim_vec ≤ pV.length) :
    ∀ (cnt i : Nat) (out : List Int), i + cnt ≤ bias.length →
      (i + cnt) * dim_vec ≤ pM.length →
      scalarRowLoop pV pM bias dim_vec bias_shift out_shift i out cnt =
        some (out ++ rowsFromAt pV pM bias dim_vec bias_shift out_shift (i * dim_vec) i cnt) := by
  intro cnt
  induction cnt with
  | zero => intro i out _ _; simp [scalarRowLoop, rowsFromAt]
  | succ cnt ih =>
      intro i out hB hM
      have h1 : (i + 1) * dim_vec = i * dim_vec + dim_vec := by ring
      have hMi : i * dim_vec + 0 + dim_vec ≤ pM.length := by
        have h2 : (i + 1) * dim_vec ≤ (i + (cnt + 1)) * dim_vec :=
          Nat.mul_le_mul_right dim_vec (by omega)
        omega
      rw [scalarRowLoop, getOpt_eq bias i (by omega)]
      show (scalarColLoop pV pM (i * dim_vec) 0
          (bias.getD i 0 * 2 ^ bias_shift + NN_ROUND out_shift) dim_vec >>= fun acc =>
        scalarRowLoop pV pM bias dim_vec bias_shift out_shift (i + 1)
          (out ++ [SSAT16 (asr acc out_shift)]) cnt) = _
      rw [scalarColLoop_eq pV pM (i * dim_vec) dim_vec 0
        (bias.getD i 0 * 2 ^ bias_shift + NN_ROUND out_shift) (by omega) hMi]
      show scalarRowLoop pV pM bias dim_vec bias_shift out_shift (i + 1)
        (out ++ [SSAT16 (asr (bias.getD i 0 * 2 ^ bias_shift + NN_ROUND out_shift +
          dotSum pV pM 0 (i * dim_vec + 0) dim_vec) out_shift)]) cnt = _
      rw [ih (i + 1) _ (by omega)
        (by rw [show i + 1 + cnt = i + (cnt + 1) from by omega]; exact hM)]
      rw [h1, List.append_assoc]
      rfl

/-- The scalar reference path computes exactly the specified rows. -/
theorem ref_eq_rows (pV pM bias vec_buffer : List Int)
    (dim_vec num_of_rows bias_shift out_shift : Nat)
    (hV : dim_vec ≤ pV.length) (hM : num_of_rows * dim_vec ≤ pM.length)
    (hB : num_of_rows ≤ bias.length) :
    arm_fully_connected_mat_q7_vec_q15_ref pV pM dim_vec num_of_rows bias_shift out_shift
        bias vec_buffer =
      some (arm_cmsis_nn_status.ARM_CMSIS_NN_SUCCESS,
        rowsFromAt pV pM bias dim_vec bias_shift out_shift 0 0 num_of_rows) := by
  rw [arm_fully_connected_mat_q7_vec_q15_ref,
    scalarRowLoop_eq pV pM bias dim_vec bias_shift out_shift hV num_of_rows 0 []
      (by omega) (by rw [Nat.zero_add]; exact hM)]
  show some (arm_cmsis_nn_status.ARM_CMSIS_NN_SUCCESS,
    [] ++ rowsFromAt pV pM bias dim_vec bias_shift out_shift (0 * dim_vec) 0 num_of_rows) = _
  rw [Nat.zero_mul, List.nil_append]

/-- One-step front expansion of the dot product. -/
theorem dotSum_succ (pV pM : List Int) (vOff mOff n : Nat) :
    dotSum pV pM vOff mOff (n + 1) =
      pV.getD vOff 0 * pM.getD mOff 0 + dotSum pV pM (vOff + 1) (mOff + 1) n := rfl

/-- Expansion of a four-column block of the dot product. -/
theorem dotSum_four (pV pM : List Int) (vOff mOff : Nat) :
    dotSum pV pM vOff mOff 4 =
      pV.getD vOff 0 * pM.getD mOff 0 +
        (pV.getD (vOff + 1) 0 * pM.getD (mOff + 1) 0 +
          (pV.getD (vOff + 2) 0 * pM.getD (mOff + 2) 0 +
            (pV.getD (vOff + 3) 0 * pM.getD (mOff + 3) 0 + 0))) := rfl

/-- Correctness of the four-wide dual-MAC column loop of the row-pair path:
it advances all three cursors by `4 * cnt` and adds the corresponding dot
products of the two rows onto the two accumulators. -/
theorem dspPairCol4_eq (pV pM : List Int) :
    ∀ (cnt pA pB pB2 : Nat) (sum sum2 : Int),
      pA + 4 * cnt ≤ pV.length → pB + 4 * cnt ≤ pM.length → pB2 + 4 * cnt ≤ pM.length →
      dspPairCol4 pV pM pA pB pB2 sum sum2 cnt =
        some (pA + 4 * cnt, pB + 4 * cnt, pB2 + 4 * cnt,
          sum + dotSum pV pM pA pB (4 * cnt), sum2 + dotSum pV pM pA pB2 (4 * cnt)) := by
  intro cnt
  induction cnt with
  | zero => intro pA pB pB2 sum sum2 _ _ _; simp [dspPairCol4, dotSum]
  | succ cnt ih =>
      intro pA pB pB2 sum sum2 hV hM hM2
      have g1 := getOpt_eq pM pB (by omega)
      have g2 := getOpt_eq pM (pB + 1) (by omega)
      have g3 := getOpt_eq pM (pB + 2) (by omega)
      have g4 := getOpt_eq pM (pB + 3) (by omega)
      have g5 := getOpt_eq pM pB2 (by omega)
      have g6 := getOpt_eq pM (pB2 + 1) (by omega)
      have g7 := getOpt_eq pM (pB2 + 2) (by omega)
      have g8 := getOpt_eq pM (pB2 + 3) (by omega)
      have g9 := getOpt_eq pV pA (by omega)
      have g10 := getOpt_eq pV (pA + 1) (by omega)
      have g11 := getOpt_eq pV (pA + 2) (by omega)
      have g12 := getOpt_eq pV (pA + 3) (by omega)
      rw [dspPairCol4]
      simp only [g1, g2, g3, g4, g5, g6, g7, g8, g9, g10, g11, g12,
        Option.bind_eq_bind, Option.some_bind]
      rw [ih (pA + 4) (pB + 4) (pB2 + 4) _ _ (by omega) (by omega) (by omega)]
      simp only [Option.some.injEq, Prod.mk.injEq]
      refine ⟨by omega, by omega, by omega, ?_, ?_⟩
      · rw [show 4 * (cnt + 1) = 4 + 4 * cnt from by ring, dotSum_add, dotSum_four]
        ring
      · rw [show 4 * (cnt + 1) = 4 + 4 * cnt from by ring, dotSum_add, dotSum_four]
        ring

/-- Correctness of the remainder column loop of the row-pair path. -/
theorem dspPairColRem_eq (pV pM : List Int) :
    ∀ (cnt pA pB pB2 : Nat) (sum sum2 : Int),
      pA + cnt ≤ pV.length → pB + cnt ≤ pM.length → pB2 + cnt ≤ pM.length →
      dspPairColRem pV pM pA pB pB2 sum sum2 cnt =
        some (pA + cnt, pB + cnt, pB2 + cnt,
          sum + dotSum pV pM pA pB cnt, sum2 + dotSum pV pM pA pB2 cnt) := by
  intro cnt
  induction cnt with
  | zero => intro pA pB pB2 sum sum2 _ _ _; simp [dspPairColRem, dotSum]
  | succ cnt ih =>
      intro pA pB pB2 sum sum2 hV hM hM2
      have g1 := getOpt_eq pV pA (by omega)
      have g2 := getOpt_eq pM pB (by omega)
      have g3 := getOpt_eq pM pB2 (by omega)
      rw [dspPairColRem]
      simp only [g1, g2, g3, Option.bind_eq_bind, Option.some_bind]
      rw [ih (pA + 1) (pB + 1) (pB2 + 1) _ _ (by omega) (by omega) (by omega)]
      simp only [Option.some.injEq, Prod.mk.injEq]
      refine ⟨by omega, by omega, by omega, ?_, ?_⟩
      · rw [dotSum_succ]; ring
      · rw [dotSum_succ]; ring

/-- Correctness of the four-wide column loop of the leftover single row. -/
theorem dspSingleCol4_eq (pV pM : List Int) :
    ∀ (cnt pA pB : Nat) (sum : Int),
      pA + 4 * cnt ≤ pV.length → pB + 4 * cnt ≤ pM.length →
      dspSingleCol4 pV pM pA pB sum cnt =
        some (pA + 4 * cnt, pB + 4 * cnt, sum + dotSum pV pM pA pB (4 * cnt)) := by
  intro cnt
  induction cnt with
  | zero => intro pA pB sum _ _; simp [dspSingleCol4, dotSum]
  | succ cnt ih =>
      intro pA pB sum hV hM
      have g1 := getOpt_eq pM pB (by omega)
      have g2 := getOpt_eq pM (pB + 1) (by omega)
      have g3 := getOpt_eq pM (pB + 2) (by omega)
      have g4 := getOpt_eq pM (pB + 3) (by omega)
      have g5 := getOpt_eq pV pA (by omega)
      have g6 := getOpt_eq pV (pA + 1) (by omega)
      have g7 := getOpt_eq pV (pA + 2) (by omega)
      have g8 := getOpt_eq pV (pA + 3) (by omega)
      rw [dspSingleCol4]
      simp only [g1, g2, g3, g4, g5, g6, g7, g8, Option.bind_eq_bind, Option.some_bind]
      rw [ih (pA + 4) (pB + 4) _ (by omega) (by omega)]
      simp only [Option.some.injEq, Prod.mk.injEq]
      refine ⟨by omega, by omega, ?_⟩
      rw [show 4 * (cnt + 1) = 4 + 4 * cnt from by ring, dotSum_add, dotSum_four]
      ring

/-- Correctness of the remainder column loop of the leftover single row. -/
theorem dspSingleColRem_eq (pV pM : List Int) :
    ∀ (cnt pA pB : Nat) (sum : Int),
      pA + cnt ≤ pV.length → pB + cnt ≤ pM.length →
      dspSingleColRem pV pM pA pB sum cnt =
        some (pA + cnt, pB + cnt, sum + dotSum pV pM pA pB cnt) := by
  intro cnt
  induction cnt with
  | zero => intro pA pB sum _ _; simp [dspSingleColRem, dotSum]
  | succ cnt ih =>
      intro pA pB sum hV hM
      have g1 := getOpt_eq pV pA (by omega)
      have g2 := getOpt_eq pM pB (by omega)
      rw [dspSingleColRem]
      simp only [g1, g2, Option.bind_eq_bind, Option.some_bind]
      rw [ih (pA + 1) (pB + 1) _ (by omega) (by omega)]
      simp only [Option.some.injEq, Prod.mk.injEq]
      refine ⟨by omega, by omega, ?_⟩
      rw [dotSum_succ]; ring

/-- Splitting one row's dot product into its four-wide blocks and remainder,
as the DSP column loops traverse it. -/
theorem dotSum_four_split (pV pM : List Int) (dim_vec vOff mOff : Nat) :
    dotSum pV pM vOff mOff (4 * (dim_vec / 4)) +
      dotSum pV pM (vOff + 4 * (dim_vec / 4)) (mOff + 4 * (dim_vec / 4)) (dim_vec % 4) =
      dotSum pV pM vOff mOff dim_vec := by
  rw [← dotSum_add, Nat.div_add_mod dim_vec 4]

/-- Appending one more row at the back of a row block. -/
theorem rowsFromAt_snoc (pV pM bias : List Int) (dim_vec bias_shift out_shift : Nat) :
    ∀ (k mOff bIdx : Nat),
      rowsFromAt pV pM bias dim_vec bias_shift out_shift mOff bIdx (k + 1) =
        rowsFromAt pV pM bias dim_vec bias_shift out_shift mOff bIdx k ++
          [rowOutAt pV pM bias dim_vec bias_shift out_shift (mOff + k * dim_vec) (bIdx + k)] := by
  intro k
  induction k with
  | zero => intro mOff bIdx; simp [rowsFromAt]
  | succ k ih =>
      intro mOff bIdx
      show rowOutAt pV pM bias dim_vec bias_shift out_shift mOff bIdx ::
        rowsFromAt pV pM bias dim_vec bias_shift out_shift (mOff + dim_vec) (bIdx + 1) (k + 1) = _
      rw [ih (mOff + dim_vec) (bIdx + 1),
        show mOff + dim_vec + k * dim_vec = mOff + (k + 1) * dim_vec from by ring,
        show bIdx + 1 + k = bIdx + (k + 1) from by omega]
      rfl

/-- Correctness of the DSP row-pair loop: starting with matrix cursor `pB` and
bias cursor `bIdx`, each of the `cnt` iterations appends the two specified row
outputs and advances the cursors past two rows. -/
theorem dspRowPairLoop_eq (pV pM bias : List Int) (dim_vec bias_shift out_shift : Nat)
    (hV : dim_vec ≤ pV.length) :
    ∀ (cnt pB bIdx : Nat) (out : List Int),
      bIdx + 2 * cnt ≤ bias.length → pB + 2 * cnt * dim_vec ≤ pM.length →
      dspRowPairLoop pV pM bias dim_vec bias_shift out_shift pB bIdx out cnt =
        some (pB + 2 * cnt * dim_vec, bIdx + 2 * cnt,
          out ++ rowsFromAt pV pM bias dim_vec bias_shift out_shift pB bIdx (2 * cnt)) := by
  intro cnt
  induction cnt with
  | zero =>
      intro pB bIdx out _ _
      simp [dspRowPairLoop, rowsFromAt]
  | succ cnt ih =>
      intro pB bIdx out hB hM
      have hs : dim_vec >>> 2 = dim_vec / 4 := by omega
      have ha : dim_vec &&& 3 = dim_vec % 4 := by
        simpa using Nat.and_pow_two_sub_one_eq_mod dim_vec 2
      have hqr : 4 * (dim_vec / 4) + dim_vec % 4 = dim_vec := Nat.div_add_mod dim_vec 4
      have hexp : 2 * (cnt + 1) * dim_vec = dim_vec + dim_vec + 2 * cnt * dim_vec := by ring
      have hM' : pB + dim_vec + dim_vec + 2 * cnt * dim_vec ≤ pM.length := by omega
      have gb1 := getOpt_eq bias bIdx (by omega)
      have gb2 := getOpt_eq bias (bIdx + 1) (by omega)
      rw [dspRowPairLoop, hs, ha]
      simp only [gb1, gb2, Option.bind_eq_bind, Option.some_bind]
      rw [dspPairCol4_eq pV pM (dim_vec / 4) 0 pB (pB + dim_vec) _ _
        (by omega) (by omega) (by omega)]
      simp only [Option.some_bind]
      rw [dspPairColRem_eq pV pM (dim_vec % 4) (0 + 4 * (dim_vec / 4))
        (pB + 4 * (dim_vec / 4)) (pB + dim_vec + 4 * (dim_vec / 4)) _ _
        (by omega) (by omega) (by omega)]
      simp only [Option.some_bind]
      have hA1 : bias.getD bIdx 0 * 2 ^ bias_shift + NN_ROUND out_shift +
          dotSum pV pM 0 pB (4 * (dim_vec / 4)) +
          dotSum pV pM (0 + 4 * (dim_vec / 4)) (pB + 4 * (dim_vec / 4)) (dim_vec % 4) =
          rowAccAt pV pM bias dim_vec bias_shift out_shift pB bIdx := by
        rw [rowAccAt, ← dotSum_four_split pV pM dim_vec 0 pB]
        ring
      have hA2 : bias.getD (bIdx + 1) 0 * 2 ^ bias_shift + NN_ROUND out_shift +
          dotSum pV pM 0 (pB + dim_vec) (4 * (dim_vec / 4)) +
          dotSum pV pM (0 + 4 * (dim_vec / 4)) (pB + dim_vec + 4 * (dim_vec / 4)) (dim_vec % 4) =
          rowAccAt pV pM bias dim_vec bias_shift out_shift (pB + dim_vec) (bIdx + 1) := by
        rw [rowAccAt, ← dotSum_four_split pV pM dim_vec 0 (pB + dim_vec)]
        ring
      rw [hA1, hA2,
        show pB + 4 * (dim_vec / 4) + dim_vec % 4 + dim_vec = pB + dim_vec + dim_vec
          from by omega]
      rw [ih (pB + dim_vec + dim_vec) (bIdx + 2) _ (by omega) (by omega)]
      simp only [Option.some.injEq, Prod.mk.injEq]
      refine ⟨by omega, by omega, ?_⟩
      rw [show 2 * (cnt + 1) = 2 * cnt + 1 + 1 from by ring, List.append_assoc]
      rfl

/-- The DSP (vectorized) path computes exactly the specified rows: the row
pairs through the dual-MAC loop, and the odd leftover row, if any, through the
single-row loop. -/
theorem dsp_eq_rows (pV pM bias vec_buffer : List Int)
    (dim_vec num_of_rows bias_shift out_shift : Nat)
    (hV : dim_vec ≤ pV.length) (hM : num_of_rows * dim_vec ≤ pM.length)
    (hB : num_of_rows ≤ bias.length) :
    arm_fully_connected_mat_q7_vec_q15_dsp pV pM dim_vec num_of_rows bias_shift out_shift
        bias vec_buffer =
      some (arm_cmsis_nn_status.ARM_CMSIS_NN_SUCCESS,
        rowsFromAt pV pM bias dim_vec bias_shift out_shift 0 0 num_of_rows) := by
  have hs1 : num_of_rows >>> 1 = num_of_rows / 2 := by omega
  have ha1 : num_of_rows &&& 1 = num_of_rows % 2 := by
    simpa using Nat.and_pow_two_sub_one_eq_mod num_of_rows 1
  have hdm : 2 * (num_of_rows / 2) + num_of_rows % 2 = num_of_rows :=
    Nat.div_add_mod num_of_rows 2
  have hmm : 2 * (num_of_rows / 2) * dim_vec ≤ num_of_rows * dim_vec :=
    Nat.mul_le_mul_right dim_vec (by omega)
  rw [arm_fully_connected_mat_q7_vec_q15_dsp, hs1, ha1]
  rw [dspRowPairLoop_eq pV pM bias dim_vec bias_shift out_shift hV (num_of_rows / 2) 0 0 []
    (by omega) (by omega)]
  simp only [Option.bind_eq_bind, Option.some_bind, Nat.zero_add, List.nil_append]
  rcases Nat.mod_two_eq_zero_or_one num_of_rows with h2 | h2
  · rw [h2, if_neg (show ¬(0 : Nat) = 1 from by omega)]
    rw [show 2 * (num_of_rows / 2) = num_of_rows from by omega]
  · rw [h2]
    simp only [if_true]
    have hs2 : dim_vec >>> 2 = dim_vec / 4 := by omega
    have ha2 : dim_vec &&& 3 = dim_vec % 4 := by
      simpa using Nat.and_pow_two_sub_one_eq_mod dim_vec 2
    have hqr : 4 * (dim_vec / 4) + dim_vec % 4 = dim_vec := Nat.div_add_mod dim_vec 4
    have hru : (2 * (num_of_rows / 2) + 1) * dim_vec = num_of_rows * dim_vec := by
      rw [show 2 * (num_of_rows / 2) + 1 = num_of_rows from by omega]
    have hru2 : (2 * (num_of_rows / 2) + 1) * dim_vec =
        2 * (num_of_rows / 2) * dim_vec + dim_vec := by ring
    have gb := getOpt_eq bias (2 * (num_of_rows / 2)) (by omega)
    rw [hs2, ha2]
    simp only [gb, Option.bind_eq_bind, Option.some_bind]
    rw [dspSingleCol4_eq pV pM (dim_vec / 4) 0 (2 * (num_of_rows / 2) * dim_vec) _
      (by omega) (by omega)]
    simp only [Option.some_bind]
    rw [dspSingleColRem_eq pV pM (dim_vec % 4) (0 + 4 * (dim_vec / 4))
      (2 * (num_of_rows / 2) * dim_vec + 4 * (dim_vec / 4)) _ (by omega) (by omega)]
    simp only [Option.some_bind]
    have hAcc : bias.getD (2 * (num_of_rows / 2)) 0 * 2 ^ bias_shift + NN_ROUND out_shift +
        dotSum pV pM 0 (2 * (num_of_rows / 2) * dim_vec) (4 * (dim_vec / 4)) +
        dotSum pV pM (0 + 4 * (dim_vec / 4))
          (2 * (num_of_rows / 2) * dim_vec + 4 * (dim_vec / 4)) (dim_vec % 4) =
        rowAccAt pV pM bias dim_vec bias_shift out_shift
          (2 * (num_of_rows / 2) * dim_vec) (2 * (num_of_rows / 2)) := by
      rw [rowAccAt, ← dotSum_four_split pV pM dim_vec 0 (2 * (num_of_rows / 2) * dim_vec)]
      ring
    rw [hAcc]
    have hro : SSAT16 (asr (rowAccAt pV pM bias dim_vec bias_shift out_shift
        (2 * (num_of_rows / 2) * dim_vec) (2 * (num_of_rows / 2))) out_shift) =
        rowOutAt pV pM bias dim_vec bias_shift out_shift
          (2 * (num_of_rows / 2) * dim_vec) (2 * (num_of_rows / 2)) := rfl
    have hsn := rowsFromAt_snoc pV pM bias dim_vec bias_shift out_shift
      (2 * (num_of_rows / 2)) 0 0
    simp only [Nat.zero_add] at hsn
    rw [hro, ← hsn, show 2 * (num_of_rows / 2) + 1 = num_of_rows from by omega]

/-- The dot product of a row against the vector, read from vector offset 0. -/
theorem dotSum_from_zero (pV pM : List Int) (mOff n : Nat) :
    dotSum pV pM 0 mOff n = ∑ j ∈ Finset.range n, pV.getD j 0 * pM.getD (mOff + j) 0 := by
  rw [dotSum_eq_sum]
  exact Finset.sum_congr rfl (fun j _ => by rw [Nat.zero_add])

/-- Saturation always lands in the signed 16-bit range. -/
theorem SSAT16_bounds (x : Int) : -32768 ≤ SSAT16 x ∧ SSAT16 x ≤ 32767 := by
  rw [SSAT16]
  split_ifs <;> omega

/-- A block of `k` rows has length `k`. -/
theorem rowsFromAt_length (pV pM bias : List Int) (dim_vec bias_shift out_shift : Nat) :
    ∀ (k mOff bIdx : Nat),
      (rowsFromAt pV pM bias dim_vec bias_shift out_shift mOff bIdx k).length = k := by
  intro k
  induction k with
  | zero => intro mOff bIdx; rfl
  | succ k ih =>
      intro mOff bIdx
      show (rowOutAt pV pM bias dim_vec bias_shift out_shift mOff bIdx ::
        rowsFromAt pV pM bias dim_vec bias_shift out_shift (mOff + dim_vec) (bIdx + 1) k).length = _
      rw [List.length_cons, ih]

/-- Entry `t` of a block of `k` rows is the row with matrix offset
`mOff + t * dim_vec` and bias index `bIdx + t`. -/
theorem rowsFromAt_getElem (pV pM bias : List Int) (dim_vec bias_shift out_shift : Nat) :
    ∀ (k t mOff bIdx : Nat), t < k →
      (rowsFromAt pV pM bias dim_vec bias_shift out_shift mOff bIdx k)[t]? =
        some (rowOutAt pV pM bias dim_vec bias_shift out_shift
          (mOff + t * dim_vec) (bIdx + t)) := by
  intro k
  induction k with
  | zero => intro t mOff bIdx ht; omega
  | succ k ih =>
      intro t mOff bIdx ht
      show (rowOutAt pV pM bias dim_vec bias_shift out_shift mOff bIdx ::
        rowsFromAt pV pM bias dim_vec bias_shift out_shift (mOff + dim_vec) (bIdx + 1) k)[t]? = _
      cases t with
      | zero => simp
      | succ t =>
          rw [List.getElem?_cons_succ, ih t (mOff + dim_vec) (bIdx + 1) (by omega),
            show mOff + dim_vec + t * dim_vec = mOff + (t + 1) * dim_vec from by ring,
            show bIdx + 1 + t = bIdx + (t + 1) from by omega]

/-- Every entry of a row block lies in the signed 16-bit range. -/
theorem rowsFromAt_mem_bounds (pV pM bias : List Int) (dim_vec bias_shift out_shift : Nat) :
    ∀ (k mOff bIdx : Nat) (x : Int),
      x ∈ rowsFromAt pV pM bias dim_vec bias_shift out_shift mOff bIdx k →
      -32768 ≤ x ∧ x ≤ 32767 := by
  intro k
  induction k with
  | zero => intro mOff bIdx x hx; simp [rowsFromAt] at hx
  | succ k ih =>
      intro mOff bIdx x hx
      rw [show rowsFromAt pV pM bias dim_vec bias_shift out_shift mOff bIdx (k + 1) =
        rowOutAt pV pM bias dim_vec bias_shift out_shift mOff bIdx ::
          rowsFromAt pV pM bias dim_vec bias_shift out_shift (mOff + dim_vec) (bIdx + 1) k
        from rfl, List.mem_cons] at hx
      rcases hx with hx | hx
      · rw [hx]
        exact SSAT16_bounds _
      · exact ih (mOff + dim_vec) (bIdx + 1) x hx

/-- C1: for every row `i < num_of_rows`, the scalar reference path writes
`output[i] = saturate16(acc >> out_shift)` where `acc = (bias[i] << bias_shift)
+ r + Σ_{j < dim_vec} vector[j] * matrix[i * dim_vec + j]`, with
`r = 1 <<< (out_shift - 1)` when `out_shift > 0` and `r = 0` when
`out_shift = 0`; the accumulation is exact integer (hence at least 32-bit
signed) arithmetic and the shift `asr` is the arithmetic (floor) right
shift. -/
theorem claim_C1_row_formula (pV pM bias vec_buffer : List Int)
    (dim_vec num_of_rows bias_shift out_shift i : Nat)
    (hV : dim_vec ≤ pV.length) (hM : num_of_rows * dim_vec ≤ pM.length)
    (hB : num_of_rows ≤ bias.length) (hi : i < num_of_rows) :
    ∃ out : List Int,
      arm_fully_connected_mat_q7_vec_q15_ref pV pM dim_vec num_of_rows bias_shift out_shift
          bias vec_buffer = some (arm_cmsis_nn_status.ARM_CMSIS_NN_SUCCESS, out) ∧
      out[i]? = some (SSAT16 (asr
        (bias.getD i 0 * 2 ^ bias_shift +
          (if 0 < out_shift then 2 ^ (out_shift - 1) else 0) +
          ∑ j ∈ Finset.range dim_vec, pV.getD j 0 * pM.getD (i * dim_vec + j) 0)
        out_shift)) := by
  refine ⟨_, ref_eq_rows pV pM bias vec_buffer dim_vec num_of_rows bias_shift out_shift
    hV hM hB, ?_⟩
  rw [rowsFromAt_getElem pV pM bias dim_vec bias_shift out_shift num_of_rows i 0 0 hi,
    Nat.zero_add, Nat.zero_add, rowOutAt, rowAccAt, NN_ROUND, dotSum_from_zero]

/-- C2: within the caller contract (buffers at least as long as the declared
dimensions), the DSP (vectorized) strategy and the scalar strategy return
identical results: the same output vector and the same status. -/
theorem claim_C2_path_equivalence (pV pM bias vec_buffer : List Int)
    (dim_vec num_of_rows bias_shift out_shift : Nat)
    (hV : dim_vec ≤ pV.length) (hM : num_of_rows * dim_vec ≤ pM.length)
    (hB : num_of_rows ≤ bias.length) :
    arm_fully_connected_mat_q7_vec_q15_dsp pV pM dim_vec num_of_rows bias_shift out_shift
        bias vec_buffer =
      arm_fully_connected_mat_q7_vec_q15_ref pV pM dim_vec num_of_rows bias_shift out_shift
        bias vec_buffer := by
  rw [dsp_eq_rows pV pM bias vec_buffer dim_vec num_of_rows bias_shift out_shift hV hM hB,
    ref_eq_rows pV pM bias vec_buffer dim_vec num_of_rows bias_shift out_shift hV hM hB]

/-- C3: the final saturation clamps rather than wraps.  Every output entry of
the kernel lies in `[-32768, 32767]`, and on concrete inputs whose shifted
pre-saturation accumulator equals `32767`, `32768`, `-32768` and `-32769`
(out_shift 0, so the accumulator is the dot product itself), both paths output
`32767, 32767, -32768, -32768` respectively. -/
theorem claim_C3_saturation :
    (∀ (pV pM bias vec_buffer : List Int) (dim_vec num_of_rows bias_shift out_shift : Nat),
      dim_vec ≤ pV.length → num_of_rows * dim_vec ≤ pM.length →
      num_of_rows ≤ bias.length →
      ∃ out : List Int,
        arm_fully_connected_mat_q7_vec_q15_ref pV pM dim_vec num_of_rows bias_shift
            out_shift bias vec_buffer =
          some (arm_cmsis_nn_status.ARM_CMSIS_NN_SUCCESS, out) ∧
        ∀ x ∈ out, -32768 ≤ x ∧ x ≤ 32767) ∧
    arm_fully_connected_mat_q7_vec_q15_ref [32767] [1] 1 1 0 0 [0] [] =
      some (arm_cmsis_nn_status.ARM_CMSIS_NN_SUCCESS, [32767]) ∧
    arm_fully_connected_mat_q7_vec_q15_ref [16384] [2] 1 1 0 0 [0] [] =
      some (arm_cmsis_nn_status.ARM_CMSIS_NN_SUCCESS, [32767]) ∧
    arm_fully_connected_mat_q7_vec_q15_ref [-16384] [2] 1 1 0 0 [0] [] =
      some (arm_cmsis_nn_status.ARM_CMSIS_NN_SUCCESS, [-32768]) ∧
    arm_fully_connected_mat_q7_vec_q15_ref [-16384, -1] [2, 1] 2 1 0 0 [0] [] =
      some (arm_cmsis_nn_status.ARM_CMSIS_NN_SUCCESS, [-32768]) ∧
    arm_fully_connected_mat_q7_vec_q15_dsp [32767] [1] 1 1 0 0 [0] [] =
      some (arm_cmsis_nn_status.ARM_CMSIS_NN_SUCCESS, [32767]) ∧
    arm_fully_connected_mat_q7_vec_q15_dsp [16384] [2] 1 1 0 0 [0] [] =
      some (arm_cmsis_nn_status.ARM_CMSIS_NN_SUCCESS, [32767]) ∧
    arm_fully_connected_mat_q7_vec_q15_dsp [-16384] [2] 1 1 0 0 [0] [] =
      some (arm_cmsis_nn_status.ARM_CMSIS_NN_SUCCESS, [-32768]) ∧
    arm_fully_connected_mat_q7_vec_q15_dsp [-16384, -1] [2, 1] 2 1 0 0 [0] [] =
      some (arm_cmsis_nn_status.ARM_CMSIS_NN_SUCCESS, [-32768]) := by
  refine ⟨?_, by decide, by decide, by decide, by decide,
    by decide, by decide, by decide, by decide⟩
  intro pV pM bias vec_buffer dim_vec num_of_rows bias_shift out_shift hV hM hB
  refine ⟨_, ref_eq_rows pV pM bias vec_buffer dim_vec num_of_rows bias_shift out_shift
    hV hM hB, ?_⟩
  intro x hx
  exact rowsFromAt_mem_bounds pV pM bias dim_vec bias_shift out_shift num_of_rows 0 0 x hx

/-- C4: with `num_of_rows = 0` both paths write nothing (empty output) and
return the success status, for every value of the other parameters. -/
theorem claim_C4_zero_rows (pV pM bias vec_buffer : List Int)
    (dim_vec bias_shift out_shift : Nat) :
    arm_fully_connected_mat_q7_vec_q15_ref pV pM dim_vec 0 bias_shift out_shift
        bias vec_buffer =
      some (arm_cmsis_nn_status.ARM_CMSIS_NN_SUCCESS, []) ∧
    arm_fully_connected_mat_q7_vec_q15_dsp pV pM dim_vec 0 bias_shift out_shift
        bias vec_buffer =
      some (arm_cmsis_nn_status.ARM_CMSIS_NN_SUCCESS, []) :=
  ⟨rfl, rfl⟩

/-- C5: with `dim_vec = 0`, every row's output is its rounded, shifted bias
alone — the conclusion's formula mentions neither the vector nor the matrix
buffer — and both paths agree on it. -/
theorem claim_C5_zero_dim (pV pM bias vec_buffer : List Int)
    (num_of_rows bias_shift out_shift : Nat) (hB : num_of_rows ≤ bias.length) :
    ∃ out : List Int,
      arm_fully_connected_mat_q7_vec_q15_ref pV pM 0 num_of_rows bias_shift out_shift
          bias vec_buffer = some (arm_cmsis_nn_status.ARM_CMSIS_NN_SUCCESS, out) ∧
      arm_fully_connected_mat_q7_vec_q15_dsp pV pM 0 num_of_rows bias_shift out_shift
          bias vec_buffer = some (arm_cmsis_nn_status.ARM_CMSIS_NN_SUCCESS, out) ∧
      out.length = num_of_rows ∧
      ∀ i, i < num_of_rows → out[i]? = some (SSAT16 (asr
        (bias.getD i 0 * 2 ^ bias_shift +
          (if 0 < out_shift then 2 ^ (out_shift - 1) else 0)) out_shift)) := by
  refine ⟨_, ref_eq_rows pV pM bias vec_buffer 0 num_of_rows bias_shift out_shift
      (Nat.zero_le _) (by simp) hB,
    dsp_eq_rows pV pM bias vec_buffer 0 num_of_rows bias_shift out_shift
      (Nat.zero_le _) (by simp) hB,
    rowsFromAt_length pV pM bias 0 bias_shift out_shift num_of_rows 0 0, ?_⟩
  intro i hi
  rw [rowsFromAt_getElem pV pM bias 0 bias_shift out_shift num_of_rows i 0 0 hi]
  simp only [Nat.zero_add, Nat.mul_zero, rowOutAt, rowAccAt, NN_ROUND, dotSum, add_zero]

/-- C6: whenever either path returns a result (i.e. every defined execution,
across both strategies and all loop-remainder combinations), the status
component is the single success value; no other status is ever produced. -/
theorem claim_C6_success_only (pV pM bias vec_buffer : List Int)
    (dim_vec num_of_rows bias_shift out_shift : Nat)
    (r : arm_cmsis_nn_status × List Int) :
    (arm_fully_connected_mat_q7_vec_q15_ref pV pM dim_vec num_of_rows bias_shift out_shift
        bias vec_buffer = some r → r.1 = arm_cmsis_nn_status.ARM_CMSIS_NN_SUCCESS) ∧
    (arm_fully_connected_mat_q7_vec_q15_dsp pV pM dim_vec num_of_rows bias_shift out_shift
        bias vec_buffer = some r → r.1 = arm_cmsis_nn_status.ARM_CMSIS_NN_SUCCESS) := by
  constructor
  · intro h
    rw [arm_fully_connected_mat_q7_vec_q15_ref] at h
    rcases ho : scalarRowLoop pV pM bias dim_vec bias_shift out_shift 0 [] num_of_rows
      with _ | o
    all_goals rw [ho] at h
    · simp at h
    · simp only [Option.bind_eq_bind, Option.some_bind, Option.some.injEq] at h
      rw [← h]
  · intro h
    rw [arm_fully_connected_mat_q7_vec_q15_dsp] at h
    rcases ho : dspRowPairLoop pV pM bias dim_vec bias_shift out_shift 0 0 []
      (num_of_rows >>> 1) with _ | trip
    all_goals rw [ho] at h
    · simp at h
    · obtain ⟨pB, bIdx, out⟩ := trip
      simp only [Option.bind_eq_bind, Option.some_bind] at h
      split at h
      · rcases hb : bias[bIdx]? with _ | b
        all_goals rw [hb] at h
        · simp at h
        · simp only [Option.bind_eq_bind, Option.some_bind] at h
          rcases h4 : dspSingleCol4 pV pM 0 pB
            (b * 2 ^ bias_shift + NN_ROUND out_shift) (dim_vec >>> 2) with _ | t4
          all_goals rw [h4] at h
          · simp at h
          · obtain ⟨pA1, pB1, s1⟩ := t4
            simp only [Option.some_bind] at h
            rcases hrem : dspSingleColRem pV pM pA1 pB1 s1 (dim_vec &&& 3) with _ | t5
            all_goals rw [hrem] at h
            · simp at h
            · obtain ⟨x, y, sf⟩ := t5
              simp only [Option.some_bind, Option.some.injEq] at h
              rw [← h]
      · simp only [Option.some.injEq] at h
        rw [← h]

/-- C7: under the caller contract both paths populate the output completely —
they return exactly the `num_of_rows` entries destined for the output buffer,
never a partial prefix, and, the embedding being a pure function from the
input buffers to that fresh list, they modify nothing else (`pV`, `pM`,
`bias` and the unused `vec_buffer` are read-only values). -/
theorem claim_C7_full_output (pV pM bias vec_buffer : List Int)
    (dim_vec num_of_rows bias_shift out_shift : Nat)
    (hV : dim_vec ≤ pV.length) (hM : num_of_rows * dim_vec ≤ pM.length)
    (hB : num_of_rows ≤ bias.length) :
    ∃ out : List Int,
      arm_fully_connected_mat_q7_vec_q15_ref pV pM dim_vec num_of_rows bias_shift out_shift
          bias vec_buffer = some (arm_cmsis_nn_status.ARM_CMSIS_NN_SUCCESS, out) ∧
      arm_fully_connected_mat_q7_vec_q15_dsp pV pM dim_vec num_of_rows bias_shift out_shift
          bias vec_buffer = some (arm_cmsis_nn_status.ARM_CMSIS_NN_SUCCESS, out) ∧
      out.length = num_of_rows :=
  ⟨_, ref_eq_rows pV pM bias vec_buffer dim_vec num_of_rows bias_shift out_shift hV hM hB,
    dsp_eq_rows pV pM bias vec_buffer dim_vec num_of_rows bias_shift out_shift hV hM hB,
    rowsFromAt_length pV pM bias dim_vec bias_shift out_shift num_of_rows 0 0⟩

/-- C8: on `dim_vec = 4`, `num_of_rows = 2`, `vector = [1,2,3,4]`,
`matrix = [[1,1,1,1],[2,2,2,2]]`, `bias = [0,0]`, `bias_shift = 0`, both
paths produce `[10, 20]` for `out_shift = 0` and `[5, 10]` for
`out_shift = 1`. -/
theorem claim_C8_example :
    arm_fully_connected_mat_q7_vec_q15_ref [1, 2, 3, 4] [1, 1, 1, 1, 2, 2, 2, 2] 4 2 0 0
        [0, 0] [] = some (arm_cmsis_nn_status.ARM_CMSIS_NN_SUCCESS, [10, 20]) ∧
    arm_fully_connected_mat_q7_vec_q15_dsp [1, 2, 3, 4] [1, 1, 1, 1, 2, 2, 2, 2] 4 2 0 0
        [0, 0] [] = some (arm_cmsis_nn_status.ARM_CMSIS_NN_SUCCESS, [10, 20]) ∧
    arm_fully_connected_mat_q7_vec_q15_ref [1, 2, 3, 4] [1, 1, 1, 1, 2, 2, 2, 2] 4 2 0 1
        [0, 0] [] = some (arm_cmsis_nn_status.ARM_CMSIS_NN_SUCCESS, [5, 10]) ∧
    arm_fully_connected_mat_q7_vec_q15_dsp [1, 2, 3, 4] [1, 1, 1, 1, 2, 2, 2, 2] 4 2 0 1
        [0, 0] [] = some (arm_cmsis_nn_status.ARM_CMSIS_NN_SUCCESS, [5, 10]) := by
  refine ⟨by decide, by decide, by decide, by decide⟩

/-- C9: under the precondition that the vector holds at least `dim_vec`
entries, the matrix at least `num_of_rows * dim_vec`, and the bias at least
`num_of_rows`, every access of either path is in bounds: in this total
embedding, where any out-of-range access makes the result `none`, both paths
return `some`. -/
theorem claim_C9_memory_safety (pV pM bias vec_buffer : List Int)
    (dim_vec num_of_rows bias_shift out_shift : Nat)
    (hV : dim_vec ≤ pV.length) (hM : num_of_rows * dim_vec ≤ pM.length)
    (hB : num_of_rows ≤ bias.length) :
    (arm_fully_connected_mat_q7_vec_q15_ref pV pM dim_vec num_of_rows bias_shift out_shift
        bias vec_buffer).isSome = true ∧
    (arm_fully_connected_mat_q7_vec_q15_dsp pV pM dim_vec num_of_rows bias_shift out_shift
        bias vec_buffer).isSome = true := by
  rw [ref_eq_rows pV pM bias vec_buffer dim_vec num_of_rows bias_shift out_shift hV hM hB,
    dsp_eq_rows pV pM bias vec_buffer dim_vec num_of_rows bias_shift out_shift hV hM hB]
  exact ⟨rfl, rfl⟩

/-- C10: the kernel terminates on every input.  Each loop of both strategies
is embedded by structural recursion on its iteration counter (the source's
`rowCnt`/`colCnt` decrements and the remaining trip counts of the scalar
`i`/`j` loops); the six unfolding equations below show every loop stepping
from counter `cnt + 1` to a recursive call at counter `cnt` — a strict
decrease per iteration — and Lean's termination checker accepts all of the
definitions, so both paths are total functions of their arguments, as the two
final conjuncts record. -/
theorem claim_C10_termination :
    (∀ (pV pM : List Int) (rowBase j : Nat) (acc : Int) (cnt : Nat),
      scalarColLoop pV pM rowBase j acc (cnt + 1) = do
        let v ← pV[j]?
        let m ← pM[rowBase + j]?
        scalarColLoop pV pM rowBase (j + 1) (acc + v * m) cnt) ∧
    (∀ (pV pM bias : List Int) (dim_vec bias_shift out_shift i : Nat) (out : List Int)
        (cnt : Nat),
      scalarRowLoop pV pM bias dim_vec bias_shift out_shift i out (cnt + 1) = do
        let b ← bias[i]?
        let acc ← scalarColLoop pV pM (i * dim_vec) 0
          (b * 2 ^ bias_shift + NN_ROUND out_shift) dim_vec
        scalarRowLoop pV pM bias dim_vec bias_shift out_shift (i + 1)
          (out ++ [SSAT16 (asr acc out_shift)]) cnt) ∧
    (∀ (pV pM : List Int) (pA pB pB2 : Nat) (sum sum2 : Int) (cnt : Nat),
      dspPairCol4 pV pM pA pB pB2 sum sum2 (cnt + 1) = do
        let m0 ← pM[pB]?
        let m1 ← pM[pB + 1]?
        let m2 ← pM[pB + 2]?
        let m3 ← pM[pB + 3]?
        let n0 ← pM[pB2]?
        let n1 ← pM[pB2 + 1]?
        let n2 ← pM[pB2 + 2]?
        let n3 ← pM[pB2 + 3]?
        let v0 ← pV[pA]?
        let v1 ← pV[pA + 1]?
        let v2 ← pV[pA + 2]?
        let v3 ← pV[pA + 3]?
        dspPairCol4 pV pM (pA + 4) (pB + 4) (pB2 + 4)
          (sum + (v0 * m0 + v1 * m1) + (v2 * m2 + v3 * m3))
          (sum2 + (v0 * n0 + v1 * n1) + (v2 * n2 + v3 * n3)) cnt) ∧
    (∀ (pV pM : List Int) (pA pB pB2 : Nat) (sum sum2 : Int) (cnt : Nat),
      dspPairColRem pV pM pA pB pB2 sum sum2 (cnt + 1) = do
        let v ← pV[pA]?
        let m ← pM[pB]?
        let m2 ← pM[pB2]?
        dspPairColRem pV pM (pA + 1) (pB + 1) (pB2 + 1)
          (sum + v * m) (sum2 + v * m2) cnt) ∧
    (∀ (pV pM : List Int) (pA pB : Nat) (sum : Int) (cnt : Nat),
      dspSingleCol4 pV pM pA pB sum (cnt + 1) = do
        let m0 ← pM[pB]?
        let m1 ← pM[pB + 1]?
        let m2 ← pM[pB + 2]?
        let m3 ← pM[pB + 3]?
        let v0 ← pV[pA]?
        let v1 ← pV[pA + 1]?
        let v2 ← pV[pA + 2]?
        let v3 ← pV[pA + 3]?
        dspSingleCol4 pV pM (pA + 4) (pB + 4)
          (sum + (v0 * m0 + v1 * m1) + (v2 * m2 + v3 * m3)) cnt) ∧
    (∀ (pV pM : List Int) (pA pB : Nat) (sum : Int) (cnt : Nat),
      dspSingleColRem pV pM pA pB sum (cnt + 1) = do
        let v ← pV[pA]?
        let m ← pM[pB]?
        dspSingleColRem pV pM (pA + 1) (pB + 1) (sum + v * m) cnt) ∧
    (∀ (pV pM bias : List Int) (dim_vec bias_shift out_shift pB bIdx : Nat)
        (out : List Int) (cnt : Nat),
      ∃ r, dspRowPairLoop pV pM bias dim_vec bias_shift out_shift pB bIdx out
        (cnt + 1) = r) ∧
    (∀ (pV pM bias vec_buffer : List Int)
        (dim_vec num_of_rows bias_shift out_shift : Nat),
      ∃ r : Option (arm_cmsis_nn_status × List Int),
        arm_fully_connected_mat_q7_vec_q15_ref pV pM dim_vec num_of_rows bias_shift
          out_shift bias vec_buffer = r) ∧
    (∀ (pV pM bias vec_buffer : List Int)
        (dim_vec num_of_rows bias_shift out_shift : Nat),
      ∃ r : Option (arm_cmsis_nn_status × List Int),
        arm_fully_connected_mat_q7_vec_q15_dsp pV pM dim_vec num_of_rows bias_shift
          out_shift bias vec_buffer = r) :=
  ⟨fun _ _ _ _ _ _ => rfl, fun _ _ _ _ _ _ _ _ _ => rfl,
    fun _ _ _ _ _ _ _ _ => rfl, fun _ _ _ _ _ _ _ _ => rfl,
    fun _ _ _ _ _ _ => rfl, fun _ _ _ _ _ _ => rfl,
    fun _ _ _ _ _ _ _ _ _ _ => ⟨_, rfl⟩,
    fun _ _ _ _ _ _ _ _ => ⟨_, rfl⟩, fun _ _ _ _ _ _ _ _ => ⟨_, rfl⟩⟩

/-- Witness for C1: the row formula evaluated at the concrete example input,
row 1. -/
theorem claim_C1_row_formula_witness :
    ∃ out : List Int,
      arm_fully_connected_mat_q7_vec_q15_ref [1, 2, 3, 4] [1, 1, 1, 1, 2, 2, 2, 2] 4 2 0 0
          [0, 0] [] = some (arm_cmsis_nn_status.ARM_CMSIS_NN_SUCCESS, out) ∧
      out[1]? = some (SSAT16 (asr
        (([0, 0] : List Int).getD 1 0 * 2 ^ 0 + (if 0 < 0 then 2 ^ (0 - 1) else 0) +
          ∑ j ∈ Finset.range 4, ([1, 2, 3, 4] : List Int).getD j 0 *
            ([1, 1, 1, 1, 2, 2, 2, 2] : List Int).getD (1 * 4 + j) 0) 0)) :=
  claim_C1_row_formula [1, 2, 3, 4] [1, 1, 1, 1, 2, 2, 2, 2] [0, 0] [] 4 2 0 0 1
    (by decide) (by decide) (by decide) (by decide)

/-- Witness for C2: path equivalence at a concrete input with an odd row
count and a column count that is no multiple of four. -/
theorem claim_C2_path_equivalence_witness :
    arm_fully_connected_mat_q7_vec_q15_dsp [1, 2, 3, 4, 5]
        [1, 0, 2, 0, 1, 3, 1, 0, 1, 2, 1, 1, 1, 1, 1] 5 3 1 2 [7, -3, 2] [] =
      arm_fully_connected_mat_q7_vec_q15_ref [1, 2, 3, 4, 5]
        [1, 0, 2, 0, 1, 3, 1, 0, 1, 2, 1, 1, 1, 1, 1] 5 3 1 2 [7, -3, 2] [] :=
  claim_C2_path_equivalence [1, 2, 3, 4, 5] [1, 0, 2, 0, 1, 3, 1, 0, 1, 2, 1, 1, 1, 1, 1]
    [7, -3, 2] [] 5 3 1 2 (by decide) (by decide) (by decide)

/-- Witness for C3: the range bound applied at a concrete input. -/
theorem claim_C3_saturation_witness :
    ∃ out : List Int,
      arm_fully_connected_mat_q7_vec_q15_ref [1, 2, 3, 4] [1, 1, 1, 1, 2, 2, 2, 2] 4 2 0 0
          [0, 0] [] = some (arm_cmsis_nn_status.ARM_CMSIS_NN_SUCCESS, out) ∧
      ∀ x ∈ out, -32768 ≤ x ∧ x ≤ 32767 :=
  claim_C3_saturation.1 [1, 2, 3, 4] [1, 1, 1, 1, 2, 2, 2, 2] [0, 0] [] 4 2 0 0
    (by decide) (by decide) (by decide)

/-- Witness for C5: the bias-only formula at a concrete one-row input. -/
theorem claim_C5_zero_dim_witness :
    ∃ out : List Int,
      arm_fully_connected_mat_q7_vec_q15_ref [9, 9] [9, 9, 9] 0 1 2 1 [3] [] =
        some (arm_cmsis_nn_status.ARM_CMSIS_NN_SUCCESS, out) ∧
      arm_fully_connected_mat_q7_vec_q15_dsp [9, 9] [9, 9, 9] 0 1 2 1 [3] [] =
        some (arm_cmsis_nn_status.ARM_CMSIS_NN_SUCCESS, out) ∧
      out.length = 1 ∧
      ∀ i, i < 1 → out[i]? = some (SSAT16 (asr
        (([3] : List Int).getD i 0 * 2 ^ 2 + (if 0 < 1 then 2 ^ (1 - 1) else 0)) 1)) :=
  claim_C5_zero_dim [9, 9] [9, 9, 9] [3] [] 1 2 1 (by decide)

/-- Witness for C6: the status of a concrete run of the scalar path. -/
theorem claim_C6_success_only_witness :
    ((arm_cmsis_nn_status.ARM_CMSIS_NN_SUCCESS, ([10, 20] : List Int))).1 =
      arm_cmsis_nn_status.ARM_CMSIS_NN_SUCCESS :=
  (claim_C6_success_only [1, 2, 3, 4] [1, 1, 1, 1, 2, 2, 2, 2] [0, 0] [] 4 2 0 0
    (arm_cmsis_nn_status.ARM_CMSIS_NN_SUCCESS, [10, 20])).1 (by decide)

/-- Witness for C7: full population at a concrete input. -/
theorem claim_C7_full_output_witness :
    ∃ out : List Int,
      arm_fully_connected_mat_q7_vec_q15_ref [1, 2, 3, 4, 5]
          [1, 0, 2, 0, 1, 3, 1, 0, 1, 2, 1, 1, 1, 1, 1] 5 3 1 2 [7, -3, 2] [] =
        some (arm_cmsis_nn_status.ARM_CMSIS_NN_SUCCESS, out) ∧
      arm_fully_connected_mat_q7_vec_q15_dsp [1, 2, 3, 4, 5]
          [1, 0, 2, 0, 1, 3, 1, 0, 1, 2, 1, 1, 1, 1, 1] 5 3 1 2 [7, -3, 2] [] =
        some (arm_cmsis_nn_status.ARM_CMSIS_NN_SUCCESS, out) ∧
      out.length = 3 :=
  claim_C7_full_output [1, 2, 3, 4, 5] [1, 0, 2, 0, 1, 3, 1, 0, 1, 2, 1, 1, 1, 1, 1]
    [7, -3, 2] [] 5 3 1 2 (by decide) (by decide) (by decide)

/-- Witness for C9: in-bounds execution of both paths at a concrete input. -/
theorem claim_C9_memory_safety_witness :
    (arm_fully_connected_mat_q7_vec_q15_ref [1, 2, 3, 4, 5, 6]
        [1, 2, 3, 4, 5, 6, -1, 1, -1, 1, -1, 1] 6 2 0 0 [1, 2] []).isSome = true ∧
    (arm_fully_connected_mat_q7_vec_q15_dsp [1, 2, 3, 4, 5, 6]
        [1, 2, 3, 4, 5, 6, -1, 1, -1, 1, -1, 1] 6 2 0 0 [1, 2] []).isSome = true :=
  claim_C9_memory_safety [1, 2, 3, 4, 5, 6] [1, 2, 3, 4, 5, 6, -1, 1, -1, 1, -1, 1]
    [1, 2] [] 6 2 0 0 (by decide) (by decide) (by decide)
